import Mathlib

/-!
Verification development for the Travel Companion chatbot pipeline
(`app.py`): record parsing, content filtering, field extraction,
intent resolution and the one-entry session cache.

Strings are modelled as `List Char`; every helper mirrors the Python
construct it embeds (`str.strip`, `str.split`, `str.title`,
`re.split` on a literal alternation, `re.search` of the city pattern).
-/

namespace Travel

abbrev LC := List Char

/-- Python whitespace set (ASCII), as used by `str.strip`, `\s`. -/
def isWS (c : Char) : Bool :=
  c = ' ' || c = '\t' || c = '\n' || c = '\r' || c = '\x0b' || c = '\x0c'

/-- ASCII letter test (Python `str.isalpha` / regex `[a-zA-Z]` on ASCII input). -/
def isAlphaAsc (c : Char) : Bool :=
  ('a' ≤ c && c ≤ 'z') || ('A' ≤ c && c ≤ 'Z')

/-- ASCII digit test (regex `\d` on ASCII input). -/
def isDigitAsc (c : Char) : Bool :=
  '0' ≤ c && c ≤ '9'

/-- Regex word character `\w` = `[a-zA-Z0-9_]` (ASCII). -/
def isWordChar (c : Char) : Bool :=
  isAlphaAsc c || isDigitAsc c || c = '_'

/-- Python `str.lower` on one ASCII character. -/
def toLowerAsc (c : Char) : Char :=
  if 'A' ≤ c && c ≤ 'Z' then Char.ofNat (c.toNat + 32) else c

/-- Python `str.upper` on one ASCII character. -/
def toUpperAsc (c : Char) : Char :=
  if 'a' ≤ c && c ≤ 'z' then Char.ofNat (c.toNat - 32) else c

/-- Python `s.lower()`. -/
def lowerLC (s : LC) : LC := s.map toLowerAsc

/-- Drop trailing characters satisfying `p` (right-hand half of a strip). -/
def dropTrail (p : Char → Bool) : LC → LC
  | [] => []
  | c :: rest =>
    match dropTrail p rest with
    | [] => if p c then [] else [c]
    | r => c :: r

/-- Python `s.strip()`: remove leading and trailing whitespace. -/
def pyStrip (s : LC) : LC := dropTrail isWS (s.dropWhile isWS)

/-- Python `s.split(',')`. -/
def splitComma : LC → List LC
  | [] => [[]]
  | c :: rest =>
    if c = ',' then [] :: splitComma rest
    else
      match splitComma rest with
      | [] => [[c]]
      | h :: t => (c :: h) :: t

/-- Python `", ".join(items)`. -/
def joinCS : List LC → LC
  | [] => []
  | [x] => x
  | x :: xs => x ++ ',' :: ' ' :: joinCS xs

/-- Does `n` occur at the head of the second list (`str.startswith`)? -/
def startsWithSeq : LC → LC → Bool
  | [], _ => true
  | _ :: _, [] => false
  | a :: as, b :: bs => a = b && startsWithSeq as bs

/-- Python substring test `n in h`. -/
def containsSeq (n : LC) : LC → Bool
  | [] => startsWithSeq n []
  | h :: rest => startsWithSeq n (h :: rest) || containsSeq n rest

/-- Does the input start with exactly four digits followed by a word
boundary (end of string or a non-word character)? -/
def fourDigitsHere : LC → Bool
  | a :: b :: c :: d :: rest =>
    isDigitAsc a && isDigitAsc b && isDigitAsc c && isDigitAsc d &&
      (match rest with
       | [] => true
       | e :: _ => !isWordChar e)
  | _ => false

/-- Scan for `\b\d{4}\b`; `prevWord` records whether the previous character
was a word character (so a boundary exists exactly when it was not). -/
def hasYearAux (prevWord : Bool) : LC → Bool
  | [] => false
  | c :: rest =>
    (!prevWord && fourDigitsHere (c :: rest)) || hasYearAux (isWordChar c) rest

/-- Python `re.search(r'\b\d{4}\b', item)` truthiness. -/
def hasYear (item : LC) : Bool := hasYearAux false item

/-- The disallowed keywords of `clean_places_to_visit`. -/
def kwList : List LC :=
  ["election".data, "film".data, "movie".data, "race".data, "title".data]

/-- Drop test of `clean_places_to_visit`: a year-like number or a keyword
occurring in the lowercased item. -/
def droppable (item : LC) : Bool :=
  hasYear item || kwList.any (fun kw => containsSeq kw (lowerLC item))

/-- The filtering `for` loop of `clean_places_to_visit` (`continue` skips
droppable items, every other item is appended). -/
def cleanLoop : List LC → List LC
  | [] => []
  | i :: rest => if droppable i then cleanLoop rest else i :: cleanLoop rest

/-- Sentinel text returned by `clean_places_to_visit` for empty input or a
fully filtered list. -/
def noSites : LC := "No specific sites listed.".data

/-- `clean_places_to_visit` from `app.py`. -/
def clean_places_to_visit (raw : LC) : LC :=
  if raw = [] then noSites
  else
    let items := (splitComma raw).map pyStrip
    let cleaned := cleanLoop items
    if cleaned = [] then noSites
    else joinCS cleaned

example : clean_places_to_visit "Paris,2024 Olympics,Eiffel Tower,2023 Film Festival".data
    = "Paris, Eiffel Tower".data := by decide

example : clean_places_to_visit "".data = noSites := by decide

example : clean_places_to_visit " ".data = [] := by decide

/-- The attribute keys of `parse_raw_info` (catalog of canonical names). -/
def catalogKeys : List LC :=
  ["Destination".data, "Country".data, "Coordinates".data,
   "Standard Time / Timezone".data, "Currency".data, "Current Weather".data,
   "Places to Visit".data, "Description (short)".data, "Travel Tips".data]

/-- The split delimiters: each catalog name followed by a colon
(the alternation `re.escape(k + ":")` of `parse_raw_info`). -/
def delims : List LC := catalogKeys.map (fun k => k ++ [':'])

/-- First delimiter of the alternation that matches at the head of `s`
(regex alternation tries the branches in order). -/
def findDelim (ds : List LC) (s : LC) : Option LC :=
  ds.find? (fun d => !d.isEmpty && startsWithSeq d s)

/-- Fuel-driven scan of `re.split(f"({pattern})", text)`: emit alternating
text and delimiter pieces, keeping the delimiters. Each step consumes at
least one character, so `fuel = length + 1` always suffices. -/
def splitKDAux (ds : List LC) : Nat → LC → LC → List LC
  | 0, s, acc => [acc.reverse ++ s]
  | fuel + 1, s, acc =>
    match s with
    | [] => [acc.reverse]
    | c :: rest =>
      match findDelim ds (c :: rest) with
      | some d => acc.reverse :: d :: splitKDAux ds fuel ((c :: rest).drop d.length) []
      | none => splitKDAux ds fuel rest (c :: acc)

/-- The piece list `parts` of `parse_raw_info`. -/
def splitKD (s : LC) : List LC := splitKDAux delims (s.length + 1) s []

/-- Python `part.endswith(":")`. -/
def endsWithColon (p : LC) : Bool :=
  match p.getLast? with
  | some ':' => true
  | _ => false

/-- Python `part.rstrip(":")`. -/
def rstripColons (p : LC) : LC := dropTrail (fun c => c = ':') p

/-- Key stored by the walk: `part.rstrip(":").strip()`. -/
def keyOf (p : LC) : LC := pyStrip (rstripColons p)

/-- Is the stripped piece empty (`not part.strip()`)? -/
def blankB (p : LC) : Bool := pyStrip p = []

/-- Key already bound in the association list (Python `key in dict`). -/
def hasKey (m : List (LC × LC)) (k : LC) : Bool := m.any (fun e => e.1 = k)

/-- Python `dict` assignment `m[k] = v`: updating an existing key keeps its
original position, a new key is appended. -/
def dictInsert (m : List (LC × LC)) (k v : LC) : List (LC × LC) :=
  if hasKey m k then m.map (fun e => if e.1 = k then (k, v) else e)
  else m ++ [(k, v)]

/-- The piece walk of `parse_raw_info`: blank pieces are skipped, a piece
ending in a colon becomes the current key, and a text piece is assigned to
the current key when that key is truthy (a non-empty string). -/
def walkPieces : List LC → Option LC → List (LC × LC) → List (LC × LC)
  | [], _, acc => acc
  | p :: rest, cur, acc =>
    if blankB p then walkPieces rest cur acc
    else if endsWithColon p then walkPieces rest (some (keyOf p)) acc
    else
      match cur with
      | some k =>
        if k = [] then walkPieces rest cur acc
        else walkPieces rest none (dictInsert acc k (pyStrip p))
      | none => walkPieces rest cur acc

/-- `parse_raw_info` from `app.py`: split the blob on the catalog
delimiters and walk the pieces into an insertion-ordered record. -/
def parse_raw_info (s : LC) : List (LC × LC) :=
  if s = [] then [] else walkPieces (splitKD s) none []

/-- `extract_field` from `app.py`. -/
def extract_field (parsed : List (LC × LC)) (fieldName : LC) : LC :=
  if parsed = [] then
    "Sorry, I couldn't find ".data ++ lowerLC fieldName ++ " information.".data
  else
    match parsed.lookup fieldName with
    | some v =>
      let v2 := if fieldName = "Places to Visit".data then clean_places_to_visit v else v
      "**".data ++ fieldName ++ ":** ".data ++ v2
    | none =>
      "Sorry, I couldn't find ".data ++ lowerLC fieldName
        ++ " information for that destination.".data

example :
    parse_raw_info "Destination:Delhi Country:India Standard Time / Timezone:IST Currency:INR (Indian Rupee)".data
      = [("Destination".data, "Delhi".data), ("Country".data, "India".data),
         ("Standard Time / Timezone".data, "IST".data),
         ("Currency".data, "INR (Indian Rupee)".data)] := by decide

example :
    extract_field (parse_raw_info "Destination:Delhi Country:India Standard Time / Timezone:IST Currency:INR (Indian Rupee)".data)
      "Standard Time / Timezone".data
      = "**Standard Time / Timezone:** IST".data := by decide

example : parse_raw_info "Currency:USD Currency:EUR".data
    = [("Currency".data, "EUR".data)] := by decide

example : parse_raw_info "hello world".data = [] := by decide

/-- Character class `[a-zA-Z\s,]` of the city pattern. -/
def cityClassChar (c : Char) : Bool := isAlphaAsc c || isWS c || c = ','

/-- Can `(?:in|of)\s+([a-zA-Z\s,]+)$` match starting at index `i` of `s`?
It can exactly when `in` or `of` sits at `i`, the remainder after it has at
least two characters all in the class, and opens with whitespace (one for
`\s+`, at least one more for the capture, which also admits whitespace). -/
def matchAtB (s : LC) (i : Nat) : Bool :=
  let here := s.drop i
  (startsWithSeq "in".data here || startsWithSeq "of".data here) &&
    (let rem := s.drop (i + 2)
     2 ≤ rem.length && rem.all cityClassChar &&
       (match rem with
        | c :: _ => isWS c
        | [] => false))

/-- Leftmost match scan of `re.search` for the city pattern. -/
def searchIdx (s : LC) : Nat → Nat → Option Nat
  | _, 0 => none
  | i, fuel + 1 => if matchAtB s i then some i else searchIdx s (i + 1) fuel

/-- Index at which `re.search` finds the city pattern, if any. -/
def findCityMatch (s : LC) : Option Nat := searchIdx s 0 s.length

/-- Length of the leading whitespace run. -/
def wsRunLen : LC → Nat
  | [] => 0
  | c :: rest => if isWS c then wsRunLen rest + 1 else 0

/-- `match.group(1)`: the remainder after the preposition minus the prefix
taken by the greedy `\s+`, which backtracks just enough to leave the
capture non-empty. -/
def captureAt (s : LC) (i : Nat) : LC :=
  let rem := s.drop (i + 2)
  rem.drop (min (wsRunLen rem) (rem.length - 1))

/-- Python `str.title()` (ASCII): a letter is uppercased after a non-letter
and lowercased after a letter; other characters pass through. -/
def pyTitleAux (prevAlpha : Bool) : LC → LC
  | [] => []
  | c :: rest =>
    (if isAlphaAsc c then (if prevAlpha then toLowerAsc c else toUpperAsc c) else c)
      :: pyTitleAux (isAlphaAsc c) rest

/-- Python `s.title()`. -/
def pyTitle (s : LC) : LC := pyTitleAux false s

/-- City detection of the intent block: search the lowercased input for a
trailing `(in|of) <words>`; on a match, the captured words stripped and
title-cased, else the whole input title-cased. -/
def detectCity (userInput : LC) : LC :=
  let lower := lowerLC userInput
  match findCityMatch lower with
  | some i => pyTitle (pyStrip (captureAt lower i))
  | none => pyTitle userInput

/-- The `fields` alias dictionary of the intent block, in insertion order. -/
def fieldsList : List (LC × LC) :=
  [("country".data, "Country".data),
   ("coordinate".data, "Coordinates".data),
   ("location".data, "Coordinates".data),
   ("time".data, "Standard Time / Timezone".data),
   ("timezone".data, "Standard Time / Timezone".data),
   ("currency".data, "Currency".data),
   ("weather".data, "Current Weather".data),
   ("place".data, "Places to Visit".data),
   ("attraction".data, "Places to Visit".data),
   ("description".data, "Description (short)".data),
   ("tip".data, "Travel Tips".data)]

/-- Field detection loop: first alias (in dictionary order) that occurs in
the lowercased input wins; none matching means no specific field. -/
def detectField (userInput : LC) : Option LC :=
  (fieldsList.find? (fun kv => containsSeq kv.1 (lowerLC userInput))).map (fun kv => kv.2)

example : detectCity "time of Delhi".data = "Delhi".data := by decide
example : detectField "time of Delhi".data = some "Standard Time / Timezone".data := by decide
example : detectCity "currency of japan".data = "Japan".data := by decide
example : detectField "currency of japan".data = some "Currency".data := by decide
example : detectCity "Tokyo".data = "Tokyo".data := by decide
example : detectField "Tokyo".data = none := by decide

/-- Session state: `st.session_state.last_city` and
`st.session_state.parsed_info`. -/
structure TurnState where
  lastCity : Option LC
  parsedInfo : List (LC × LC)
deriving DecidableEq

/-- The cache validity test `st.session_state.last_city == city and
st.session_state.parsed_info`. -/
def current_info_is_valid (st : TurnState) (city : LC) : Bool :=
  (match st.lastCity with
   | some c => c = city
   | none => false) && !st.parsedInfo.isEmpty

/-- Fetch/cache decision of the turn handler: a fresh fetch happens when the
cache is stale or no specific field was requested; the first component says
whether a fetch occurred, the second is the record used for the reply, the
third the state after the turn. `rawBlob` is what the external provider
would return for the city. -/
def handleQuery (st : TurnState) (city : LC) (foundField : Option LC) (rawBlob : LC) :
    Bool × List (LC × LC) × TurnState :=
  if !current_info_is_valid st city || foundField.isNone then
    let parsed := parse_raw_info rawBlob
    (true, parsed, ⟨some city, parsed⟩)
  else
    (false, st.parsedInfo, st)

/-- Does any catalog delimiter occur anywhere in the text? -/
def hasDelim : LC → Bool
  | [] => false
  | c :: rest => (findDelim delims (c :: rest)).isSome || hasDelim rest

/-- Is the piece one of the catalog delimiters (a `Key:` occurrence)? -/
def isDelimB (p : LC) : Bool := delims.any (fun d => d = p)

/-- Is the first non-blank piece of the rest a value piece (text that would
be assigned), rather than another key or nothing? -/
def nvB : List LC → Bool
  | [] => false
  | p :: rest => if blankB p then nvB rest else !endsWithColon p

/-- Number of delimiter pieces: the `N` of the claim, one per valid
`Key:` occurrence in the blob. -/
def Ncount (pieces : List LC) : Nat := pieces.countP (fun p => isDelimB p)

/-- Number of delimiter pieces not followed by value text before the next
delimiter or the end: the keys that the claim subtracts. -/
def Mcount : List LC → Nat
  | [] => 0
  | p :: rest =>
    (if !blankB p && isDelimB p && !nvB rest then 1 else 0) + Mcount rest

/-- Number of assignments the walk performs from a given key-held state:
`curSet` records whether a (truthy) current key is pending. -/
def assignedCount (curSet : Bool) : List LC → Nat
  | [] => 0
  | p :: rest =>
    if blankB p then assignedCount curSet rest
    else if endsWithColon p then assignedCount true rest
    else if curSet then 1 + assignedCount false rest
    else assignedCount false rest

/-- Keys contributed by the delimiter pieces of a piece list. -/
def delimKeys (pieces : List LC) : List LC :=
  (pieces.filter (fun p => isDelimB p)).map keyOf

/-- Keys pending from the current-key register. -/
def curKeys : Option LC → List LC
  | none => []
  | some k => [k]

lemma splitKDAux_no_delim : ∀ (s : LC) (fuel : Nat) (acc : LC), hasDelim s = false →
    splitKDAux delims fuel s acc = [acc.reverse ++ s] := by
  intro s
  induction s with
  | nil =>
    intro fuel acc _
    cases fuel <;> simp [splitKDAux]
  | cons c rest ih =>
    intro fuel acc h
    rw [hasDelim] at h
    have h1 := (Bool.or_eq_false_iff.mp h).1
    have h2 := (Bool.or_eq_false_iff.mp h).2
    cases fuel with
    | zero => simp [splitKDAux]
    | succ f =>
      cases hfd : findDelim delims (c :: rest) with
      | some d => rw [hfd] at h1; simp at h1
      | none =>
        simp only [splitKDAux, hfd]
        rw [ih f (c :: acc) h2]
        simp

lemma walkPieces_single (p : LC) : walkPieces [p] none [] = [] := by
  by_cases hb : blankB p = true
  · simp [walkPieces, hb]
  · by_cases he : endsWithColon p = true
    · simp [walkPieces, hb, he]
    · simp [walkPieces, hb, he]

/-- Claim C9: a blob that is empty or contains no recognized catalog
delimiter parses to the empty record (and parsing is total, hence never
fails). -/
theorem claim_C9 (s : LC) (h : hasDelim s = false) : parse_raw_info s = [] := by
  by_cases hs : s = []
  · simp [parse_raw_info, hs]
  · rw [parse_raw_info, if_neg hs, splitKD, splitKDAux_no_delim s _ _ h]
    simpa using walkPieces_single s

theorem claim_C9_witness :
    hasDelim "hello world".data = false ∧ parse_raw_info "hello world".data = [] :=
  ⟨by decide, claim_C9 "hello world".data (by decide)⟩

lemma cleanLoop_eq_filter (l : List LC) :
    cleanLoop l = l.filter (fun i => !droppable i) := by
  induction l with
  | nil => rfl
  | cons i rest ih =>
    by_cases hd : droppable i = true <;> simp [cleanLoop, List.filter_cons, hd, ih]

lemma mem_cleanLoop (l : List LC) (i : LC) :
    i ∈ cleanLoop l ↔ (i ∈ l ∧ droppable i = false) := by
  rw [cleanLoop_eq_filter]
  simp [List.mem_filter]

/-- Claim C3 (amended): the Content Filter on the empty string, or on an
input all of whose stripped comma-items are droppable, returns the fixed
sentinel, whose text is `"No specific sites listed."`. -/
theorem claim_C3_amended :
    clean_places_to_visit [] = noSites ∧
    ∀ s : LC, (∀ i ∈ (splitComma s).map pyStrip, droppable i = true) →
      clean_places_to_visit s = noSites := by
  refine ⟨rfl, ?_⟩
  intro s h
  by_cases hs : s = []
  · simp [clean_places_to_visit, hs]
  · rw [clean_places_to_visit, if_neg hs]
    have hnil : cleanLoop ((splitComma s).map pyStrip) = [] := by
      rw [cleanLoop_eq_filter, List.filter_eq_nil_iff]
      intro i hi
      simp [h i hi]
    simp [hnil]

theorem claim_C3_witness :
    (∀ i ∈ (splitComma "2024 film".data).map pyStrip, droppable i = true) ∧
    clean_places_to_visit "2024 film".data = noSites :=
  ⟨by decide, claim_C3_amended.2 "2024 film".data (by decide)⟩

/-- Claim C3 counterexample: the sentinel of the code is
`"No specific sites listed."`, not `"no items available"`. -/
theorem claim_C3_counterexample :
    clean_places_to_visit "".data = "No specific sites listed.".data ∧
    "No specific sites listed.".data ≠ "no items available".data := by decide

lemma splitComma_no_comma (s : LC) (h : ∀ c ∈ s, ¬(c = ',')) : splitComma s = [s] := by
  induction s with
  | nil => rfl
  | cons c rest ih =>
    have hc : ¬(c = ',') := h c (List.mem_cons_self c rest)
    rw [splitComma, if_neg hc, ih (fun x hx => h x (List.mem_cons_of_mem c hx))]

lemma dropWhile_all (p : Char → Bool) (s : LC) (h : ∀ c ∈ s, p c = true) :
    s.dropWhile p = [] := by
  induction s with
  | nil => rfl
  | cons c rest ih =>
    rw [List.dropWhile_cons, if_pos (h c (List.mem_cons_self c rest))]
    exact ih (fun x hx => h x (List.mem_cons_of_mem c hx))

lemma pyStrip_all_ws (s : LC) (h : ∀ c ∈ s, isWS c = true) : pyStrip s = [] := by
  rw [pyStrip, dropWhile_all _ _ h]
  rfl

/-- Claim C10: a non-empty, all-whitespace input to the Content Filter
yields the empty string, not a sentinel: the single item strips to the
empty string, survives both tests, and re-joins to the empty string. -/
theorem claim_C10 (s : LC) (h1 : s ≠ []) (h2 : ∀ c ∈ s, isWS c = true) :
    clean_places_to_visit s = [] := by
  have hnc : ∀ c ∈ s, ¬(c = ',') := by
    intro c hc heq
    have hw := h2 c hc
    subst heq
    exact absurd hw (by decide)
  have hsp : splitComma s = [s] := splitComma_no_comma s hnc
  have hst : pyStrip s = [] := pyStrip_all_ws s h2
  have hcl : cleanLoop [([] : LC)] = [[]] := by decide
  rw [clean_places_to_visit, if_neg h1]
  simp [hsp, hst, hcl, joinCS]

theorem claim_C10_witness :
    (" ".data ≠ ([] : LC)) ∧ (∀ c ∈ " ".data, isWS c = true) ∧
    clean_places_to_visit " ".data = [] :=
  ⟨by decide, by decide, claim_C10 " ".data (by decide) (by decide)⟩

/-- Claim C1: end-to-end on the utterance "time of Delhi" — the intent
block resolves city "Delhi" and field "Standard Time / Timezone", and
parsing the provider blob then extracting that field yields exactly
`"**Standard Time / Timezone:** IST"`. -/
theorem claim_C1 :
    detectCity "time of Delhi".data = "Delhi".data ∧
    detectField "time of Delhi".data = some "Standard Time / Timezone".data ∧
    extract_field
        (parse_raw_info "Destination:Delhi Country:India Standard Time / Timezone:IST Currency:INR (Indian Rupee)".data)
        "Standard Time / Timezone".data
      = "**Standard Time / Timezone:** IST".data := by decide

/-- Claim C2 counterexample: the blob `"Currency:USD Currency:EUR"` has two
valid catalog `Key:value` occurrences, none lacking value text, yet the
parser yields a single entry (the repeated key is overwritten), so the
entry count is not `N` minus the keys with no value. -/
theorem claim_C2_counterexample :
    (parse_raw_info "Currency:USD Currency:EUR".data).length ≠
      Ncount (splitKD "Currency:USD Currency:EUR".data)
        - Mcount (splitKD "Currency:USD Currency:EUR".data) := by decide

/-- Claim C5 counterexample: on the all-whitespace input `" "` the filter
returns `""`, but filtering `""` again returns the sentinel, so the filter
is not idempotent on every input. -/
theorem claim_C5_counterexample :
    clean_places_to_visit (clean_places_to_visit " ".data) ≠
      clean_places_to_visit " ".data := by decide

/-- Claim C4 counterexample: with the cached city equal to the queried city
and a non-empty cached record but no specific field requested, the code
still performs a fresh fetch, contradicting the claimed "cached if and only
if city matches and record non-empty". -/
theorem claim_C4_counterexample :
    ¬(((handleQuery ⟨some "Paris".data, [("Country".data, "France".data)]⟩
          "Paris".data none "Destination:Paris".data).1 = false) ↔
        (some "Paris".data = some "Paris".data ∧
          ([("Country".data, "France".data)] : List (LC × LC)) ≠ [])) := by decide

/-- Claim C4 (amended): the cached record is used, with no fresh fetch, if
and only if the previously resolved city equals the queried city, the
cached record is non-empty, and a specific field is requested; in every
other case (including a whole-record request) a fresh fetch is performed.
After caching Paris with a non-empty record, a field query about Paris
reuses the record without a fetch, and a query about London fetches. -/
theorem claim_C4_amended :
    (∀ (st : TurnState) (city : LC) (ff : Option LC) (blob : LC),
        (handleQuery st city ff blob).1 = false ↔
          (st.lastCity = some city ∧ st.parsedInfo ≠ [] ∧ ff ≠ none)) ∧
    (∀ (v : LC × LC) (tl : List (LC × LC)) (f : LC) (blob : LC),
        handleQuery ⟨some "Paris".data, v :: tl⟩ "Paris".data (some f) blob
          = (false, v :: tl, ⟨some "Paris".data, v :: tl⟩)) ∧
    (∀ blob : LC,
        (handleQuery ⟨some "Paris".data, [("Country".data, "France".data)]⟩
            "London".data (some "Country".data) blob).1 = true) := by
  refine ⟨?_, ?_, ?_⟩
  · intro st city ff blob
    rcases st with ⟨lc, pi⟩
    cases lc with
    | none => cases ff <;> simp [handleQuery, current_info_is_valid]
    | some c =>
      cases ff with
      | none => simp [handleQuery, current_info_is_valid]
      | some f =>
        by_cases hc : c = city
        · subst hc
          cases pi <;> simp [handleQuery, current_info_is_valid]
        · simp [handleQuery, current_info_is_valid, hc]
  · intro v tl f blob
    simp [handleQuery, current_info_is_valid]
  · intro blob
    simp [handleQuery, current_info_is_valid]

/-- Claim C8: a stripped comma-item is retained by the Content Filter
exactly when it has no standalone 4-digit number and contains none of the
disallowed keywords in lowercase; and the documented example filters to
`"Paris, Eiffel Tower"`. -/
theorem claim_C8 :
    (∀ (s : LC), ∀ i ∈ (splitComma s).map pyStrip,
        (i ∈ cleanLoop ((splitComma s).map pyStrip) ↔
          ¬(hasYear i = true ∨
            kwList.any (fun kw => containsSeq kw (lowerLC i)) = true))) ∧
    clean_places_to_visit "Paris,2024 Olympics,Eiffel Tower,2023 Film Festival".data
      = "Paris, Eiffel Tower".data := by
  constructor
  · intro s i hi
    rw [mem_cleanLoop, droppable]
    simp [hi, not_or]
  · decide

theorem claim_C8_witness :
    "Paris".data ∈ (splitComma "Paris,2024 Olympics".data).map pyStrip ∧
    ("Paris".data ∈ cleanLoop ((splitComma "Paris,2024 Olympics".data).map pyStrip) ↔
      ¬(hasYear "Paris".data = true ∨
        kwList.any (fun kw => containsSeq kw (lowerLC "Paris".data)) = true)) :=
  ⟨by decide, claim_C8.1 "Paris,2024 Olympics".data "Paris".data (by decide)⟩

lemma find?_split {α : Type} (p : α → Bool) :
    ∀ (l : List α) (a : α), l.find? p = some a →
      ∃ l1 l2, l = l1 ++ a :: l2 ∧ p a = true ∧ ∀ x ∈ l1, p x = false := by
  intro l
  induction l with
  | nil => intro a h; simp [List.find?] at h
  | cons x rest ih =>
    intro a h
    by_cases hx : p x = true
    · rw [List.find?_cons_of_pos _ hx] at h
      obtain rfl : x = a := Option.some.inj h
      exact ⟨[], rest, rfl, hx, by simp⟩
    · rw [List.find?_cons_of_neg _ hx] at h
      obtain ⟨l1, l2, rfl, hpa, hl1⟩ := ih a h
      refine ⟨x :: l1, l2, rfl, hpa, ?_⟩
      intro y hy
      rcases List.mem_cons.mp hy with rfl | hy2
      · exact Bool.eq_false_iff.mpr hx
      · exact hl1 y hy2

/-- Claim C7: the alias keywords are scanned in catalog order; the first
alias occurring as a substring of the lowercased utterance determines the
field, no alias matching means no field (render-all); and
"currency of japan" resolves the Currency field. -/
theorem claim_C7 :
    (∀ u : LC, detectField u = none ↔
        ∀ kv ∈ fieldsList, containsSeq kv.1 (lowerLC u) = false) ∧
    (∀ (u : LC) (f : LC), detectField u = some f →
        ∃ l1 kv l2, fieldsList = l1 ++ kv :: l2 ∧
          containsSeq kv.1 (lowerLC u) = true ∧ kv.2 = f ∧
          ∀ kv2 ∈ l1, containsSeq kv2.1 (lowerLC u) = false) ∧
    detectField "currency of japan".data = some "Currency".data := by
  refine ⟨?_, ?_, by decide⟩
  · intro u
    rw [detectField]
    constructor
    · intro h kv hkv
      rw [Option.map_eq_none'] at h
      exact Bool.eq_false_iff.mpr (List.find?_eq_none.mp h kv hkv)
    · intro h
      rw [Option.map_eq_none']
      exact List.find?_eq_none.mpr (fun kv hkv => by simp [h kv hkv])
  · intro u f h
    rw [detectField] at h
    obtain ⟨kv, hfind, rfl⟩ := Option.map_eq_some'.mp h
    obtain ⟨l1, l2, heq, hp, hl1⟩ := find?_split _ fieldsList kv hfind
    exact ⟨l1, kv, l2, heq, hp, rfl, hl1⟩

theorem claim_C7_witness :
    detectField "currency of japan".data = some "Currency".data ∧
    (∃ l1 kv l2, fieldsList = l1 ++ kv :: l2 ∧
      containsSeq kv.1 (lowerLC "currency of japan".data) = true ∧
      kv.2 = "Currency".data ∧
      ∀ kv2 ∈ l1, containsSeq kv2.1 (lowerLC "currency of japan".data) = false) :=
  ⟨by decide, claim_C7.2.1 "currency of japan".data "Currency".data (by decide)⟩

lemma matchAtB_le (s : LC) (i : Nat) (h : matchAtB s i = true) : i + 4 ≤ s.length := by
  simp only [matchAtB, Bool.and_eq_true, decide_eq_true_eq] at h
  have h2 := h.2.1.1
  rw [List.length_drop] at h2
  omega

lemma searchIdx_some (s : LC) : ∀ (fuel i j : Nat), searchIdx s i fuel = some j →
    matchAtB s j = true ∧ i ≤ j ∧ ∀ k, i ≤ k → k < j → matchAtB s k = false := by
  intro fuel
  induction fuel with
  | zero => intro i j h; simp [searchIdx] at h
  | succ f ih =>
    intro i j h
    rw [searchIdx] at h
    by_cases hm : matchAtB s i = true
    · rw [if_pos hm] at h
      obtain rfl := Option.some.inj h
      exact ⟨hm, Nat.le_refl _, fun k hk1 hk2 => absurd hk1 (by omega)⟩
    · rw [if_neg hm] at h
      obtain ⟨h1, h2, h3⟩ := ih (i + 1) j h
      refine ⟨h1, by omega, ?_⟩
      intro k hk1 hk2
      by_cases hk : k = i
      · subst hk; exact Bool.eq_false_iff.mpr hm
      · exact h3 k (by omega) hk2

lemma searchIdx_none (s : LC) : ∀ (fuel i : Nat), searchIdx s i fuel = none →
    ∀ k, i ≤ k → k < i + fuel → matchAtB s k = false := by
  intro fuel
  induction fuel with
  | zero => intro i _ k hk1 hk2; omega
  | succ f ih =>
    intro i h k hk1 hk2
    rw [searchIdx] at h
    by_cases hm : matchAtB s i = true
    · rw [if_pos hm] at h; exact absurd h (by simp)
    · rw [if_neg hm] at h
      by_cases hk : k = i
      · subst hk; exact Bool.eq_false_iff.mpr hm
      · exact ih (i + 1) h k (by omega) (by omega)

lemma findCityMatch_none (s : LC) (h : findCityMatch s = none) :
    ∀ j, matchAtB s j = false := by
  intro j
  rw [findCityMatch] at h
  by_cases hj : j < s.length
  · exact searchIdx_none s s.length 0 h j (Nat.zero_le j) (by omega)
  · by_cases hm : matchAtB s j = true
    · have := matchAtB_le s j hm; omega
    · exact Bool.eq_false_iff.mpr hm

lemma pyStrip_drop_ws : ∀ (rem : LC) (k : Nat), k ≤ wsRunLen rem →
    pyStrip (rem.drop k) = pyStrip rem := by
  intro rem
  induction rem with
  | nil => intro k _; simp
  | cons c rest ih =>
    intro k hk
    cases k with
    | zero => rfl
    | succ k2 =>
      rw [wsRunLen] at hk
      by_cases hw : isWS c = true
      · rw [if_pos hw] at hk
        have hdrop : (c :: rest).drop (k2 + 1) = rest.drop k2 := by
          simp [List.drop_succ_cons]
        rw [hdrop, ih k2 (by omega), pyStrip, pyStrip, List.dropWhile_cons, if_pos hw]
      · rw [if_neg hw] at hk; omega

lemma pyStrip_captureAt (s : LC) (i : Nat) :
    pyStrip (captureAt s i) = pyStrip (s.drop (i + 2)) := by
  rw [captureAt]
  exact pyStrip_drop_ws _ _ (Nat.min_le_left _ _)

/-- Claim C6: if the trailing-city pattern matches nowhere in the lowercased
utterance, the whole utterance title-cased is the city; if it matches
somewhere, the leftmost match wins and the captured words, stripped and
title-cased, are the city; "currency of japan" gives "Japan" and "Tokyo"
gives "Tokyo". -/
theorem claim_C6 :
    (∀ u : LC, (∀ j, matchAtB (lowerLC u) j = false) → detectCity u = pyTitle u) ∧
    (∀ (u : LC) (i : Nat), matchAtB (lowerLC u) i = true →
        ∃ j, j ≤ i ∧ matchAtB (lowerLC u) j = true ∧
          (∀ k, k < j → matchAtB (lowerLC u) k = false) ∧
          detectCity u = pyTitle (pyStrip ((lowerLC u).drop (j + 2)))) ∧
    detectCity "currency of japan".data = "Japan".data ∧
    detectCity "Tokyo".data = "Tokyo".data := by
  refine ⟨?_, ?_, by decide, by decide⟩
  · intro u h
    cases hf : findCityMatch (lowerLC u) with
    | none => simp [detectCity, hf]
    | some i =>
      rw [findCityMatch] at hf
      have := (searchIdx_some _ _ _ _ hf).1
      rw [h i] at this
      simp at this
  · intro u i h
    cases hf : findCityMatch (lowerLC u) with
    | none =>
      have := findCityMatch_none _ hf i
      rw [h] at this
      simp at this
    | some j =>
      have hf2 := hf
      rw [findCityMatch] at hf2
      obtain ⟨h1, _, h3⟩ := searchIdx_some _ _ _ _ hf2
      refine ⟨j, ?_, h1, fun k hk => h3 k (Nat.zero_le k) hk, ?_⟩
      · by_cases hij : j ≤ i
        · exact hij
        · have := h3 i (Nat.zero_le i) (by omega)
          rw [h] at this
          simp at this
      · simp only [detectCity, hf]
        rw [pyStrip_captureAt]

theorem claim_C6_witness :
    matchAtB (lowerLC "time of Delhi".data) 5 = true ∧
    (∃ j, j ≤ 5 ∧ matchAtB (lowerLC "time of Delhi".data) j = true ∧
      (∀ k, k < j → matchAtB (lowerLC "time of Delhi".data) k = false) ∧
      detectCity "time of Delhi".data
        = pyTitle (pyStrip ((lowerLC "time of Delhi".data).drop (j + 2)))) :=
  ⟨by decide, claim_C6.2.1 "time of Delhi".data 5 (by decide)⟩

lemma dropTrail_head (p : Char → Bool) (c : Char) (rest : LC) :
    dropTrail p (c :: rest) = [] ∨ ∃ t, dropTrail p (c :: rest) = c :: t := by
  rw [dropTrail]
  cases h : dropTrail p rest with
  | nil => by_cases hp : p c = true <;> simp [hp]
  | cons a t => right; exact ⟨a :: t, rfl⟩

lemma dropTrail_idem (p : Char → Bool) : ∀ l : LC,
    dropTrail p (dropTrail p l) = dropTrail p l := by
  intro l
  induction l with
  | nil => rfl
  | cons c rest ih =>
    rw [dropTrail]
    cases h : dropTrail p rest with
    | nil =>
      by_cases hp : p c = true
      · simp [hp, dropTrail]
      · simp [hp, dropTrail]
    | cons a t =>
      have h2 : dropTrail p (a :: t) = a :: t := by
        rw [← h, ih]
      simp only []
      rw [dropTrail, h2]

lemma dropTrail_mem (p : Char → Bool) : ∀ (l : LC) (c : Char),
    c ∈ dropTrail p l → c ∈ l := by
  intro l
  induction l with
  | nil => intro c hc; exact absurd hc (by simp [dropTrail])
  | cons a rest ih =>
    intro c hc
    rw [dropTrail] at hc
    cases h : dropTrail p rest with
    | nil =>
      rw [h] at hc
      by_cases hp : p a = true
      · rw [if_pos hp] at hc; exact absurd hc (by simp)
      · rw [if_neg hp] at hc
        rcases List.mem_singleton.mp hc with rfl
        exact List.mem_cons_self _ _
    | cons b t =>
      rw [h] at hc
      rcases List.mem_cons.mp hc with rfl | hc2
      · exact List.mem_cons_self _ _
      · exact List.mem_cons_of_mem _ (ih c (h ▸ hc2))

lemma dropWhile_head (p : Char → Bool) (l : LC) :
    l.dropWhile p = [] ∨ ∃ c t, l.dropWhile p = c :: t ∧ p c = false := by
  induction l with
  | nil => left; rfl
  | cons c rest ih =>
    rw [List.dropWhile_cons]
    by_cases hp : p c = true
    · simpa [hp] using ih
    · right; exact ⟨c, rest, by simp [hp], Bool.eq_false_iff.mpr hp⟩

lemma pyStrip_idem (l : LC) : pyStrip (pyStrip l) = pyStrip l := by
  rw [pyStrip, pyStrip]
  rcases dropWhile_head isWS l with h | ⟨c, t, h, hc⟩
  · rw [h]; rfl
  · rw [h]
    rcases dropTrail_head isWS c t with h2 | ⟨t2, h2⟩
    · rw [h2]; rfl
    · rw [h2, List.dropWhile_cons, if_neg (by simp [hc]), ← h2]
      exact dropTrail_idem isWS (c :: t)

lemma pyStrip_cons_ws {c : Char} (l : LC) (hw : isWS c = true) :
    pyStrip (c :: l) = pyStrip l := by
  rw [pyStrip, List.dropWhile_cons, if_pos hw]
  rfl

lemma pyStrip_mem (l : LC) (c : Char) (hc : c ∈ pyStrip l) : c ∈ l := by
  rw [pyStrip] at hc
  exact (List.dropWhile_sublist isWS (l := l)).mem (dropTrail_mem isWS _ c hc)

lemma splitComma_mem_no_comma : ∀ (s : LC), ∀ p ∈ splitComma s, ∀ c ∈ p, ¬(c = ',') := by
  intro s
  induction s with
  | nil =>
    intro p hp c hc
    rcases List.mem_singleton.mp hp with rfl
    exact absurd hc (by simp)
  | cons a rest ih =>
    intro p hp c hc
    rw [splitComma] at hp
    by_cases ha : a = ','
    · rw [if_pos ha] at hp
      rcases List.mem_cons.mp hp with rfl | hp2
      · exact absurd hc (by simp)
      · exact ih p hp2 c hc
    · rw [if_neg ha] at hp
      cases h : splitComma rest with
      | nil =>
        rw [h] at hp
        rcases List.mem_singleton.mp hp with rfl
        rcases List.mem_singleton.mp hc with rfl
        exact ha
      | cons q t =>
        rw [h] at hp
        rcases List.mem_cons.mp hp with rfl | hp2
        · rcases List.mem_cons.mp hc with rfl | hc2
          · exact ha
          · exact ih q (h ▸ List.mem_cons_self q t) c hc2
        · exact ih p (h ▸ List.mem_cons_of_mem q hp2) c hc

lemma splitComma_append_comma : ∀ (a r : LC), (∀ c ∈ a, ¬(c = ',')) →
    splitComma (a ++ ',' :: r) = a :: splitComma r := by
  intro a
  induction a with
  | nil => intro r _; simp [splitComma]
  | cons c a2 ih =>
    intro r h
    have hc : ¬(c = ',') := h c (List.mem_cons_self c a2)
    rw [List.cons_append, splitComma, if_neg hc,
      ih r (fun x hx => h x (List.mem_cons_of_mem c hx))]

lemma map_eq_self_of_mem {α : Type} (f : α → α) : ∀ (l : List α),
    (∀ x ∈ l, f x = x) → l.map f = l := by
  intro l
  induction l with
  | nil => intro _; rfl
  | cons a t ih =>
    intro h
    rw [List.map_cons, h a (List.mem_cons_self a t),
      ih (fun x hx => h x (List.mem_cons_of_mem a hx))]

lemma joinCS_cons2 (x y : LC) (xs : List LC) :
    joinCS (x :: y :: xs) = x ++ ',' :: ' ' :: joinCS (y :: xs) := rfl

lemma splitComma_joinCS : ∀ (t : List LC) (a : LC),
    (∀ c ∈ a, ¬(c = ',')) → (∀ p ∈ t, ∀ c ∈ p, ¬(c = ',')) →
    splitComma (joinCS (a :: t)) = a :: t.map (fun x => ' ' :: x) := by
  intro t
  induction t with
  | nil =>
    intro a ha _
    simpa [joinCS] using splitComma_no_comma a ha
  | cons b t2 ih =>
    intro a ha hb
    rw [joinCS_cons2, splitComma_append_comma a _ ha, splitComma]
    rw [if_neg (by decide : ¬(' ' = ','))]
    rw [ih b (hb b (List.mem_cons_self b t2))
      (fun p hp => hb p (List.mem_cons_of_mem b hp))]
    simp

/-- Claim C5 (amended): the Content Filter is idempotent on every input
whose output is non-empty; the single exception is an output of `""`
(which arises only from a non-empty input whose sole retained item strips
to the empty string), where refiltering yields the sentinel instead. -/
theorem claim_C5_amended (s : LC) (h : clean_places_to_visit s ≠ []) :
    clean_places_to_visit (clean_places_to_visit s) = clean_places_to_visit s := by
  by_cases hs : s = []
  · subst hs
    have h0 : clean_places_to_visit ([] : LC) = noSites := rfl
    rw [h0]
    decide
  · cases hcl : cleanLoop ((splitComma s).map pyStrip) with
    | nil =>
      have h0 : clean_places_to_visit s = noSites := by
        rw [clean_places_to_visit, if_neg hs]
        simp [hcl]
      rw [h0]
      decide
    | cons a t =>
      have hout : clean_places_to_visit s = joinCS (a :: t) := by
        rw [clean_places_to_visit, if_neg hs]
        simp [hcl]
      have hmem : ∀ p ∈ a :: t, p ∈ (splitComma s).map pyStrip ∧ droppable p = false := by
        intro p hp
        exact (mem_cleanLoop _ p).mp (hcl ▸ hp)
      have hstr : ∀ p ∈ a :: t, pyStrip p = p := by
        intro p hp
        obtain ⟨q, _, rfl⟩ := List.mem_map.mp (hmem p hp).1
        exact pyStrip_idem q
      have hnc : ∀ p ∈ a :: t, ∀ c ∈ p, ¬(c = ',') := by
        intro p hp c hc
        obtain ⟨q, hq, rfl⟩ := List.mem_map.mp (hmem p hp).1
        exact splitComma_mem_no_comma s q hq c (pyStrip_mem q c hc)
      rw [hout] at h ⊢
      rw [clean_places_to_visit, if_neg h]
      rw [splitComma_joinCS t a (hnc a (List.mem_cons_self a t))
        (fun p hp => hnc p (List.mem_cons_of_mem a hp))]
      have hitems : (a :: t.map (fun x => ' ' :: x)).map pyStrip = a :: t := by
        rw [List.map_cons, hstr a (List.mem_cons_self a t), List.map_map]
        congr 1
        apply map_eq_self_of_mem
        intro x hx
        show pyStrip (' ' :: x) = x
        rw [pyStrip_cons_ws x (by decide)]
        exact hstr x (List.mem_cons_of_mem a hx)
      rw [hitems]
      have hclean2 : cleanLoop (a :: t) = a :: t := by
        rw [cleanLoop_eq_filter]
        apply List.filter_eq_self.mpr
        intro p hp
        simp [(hmem p hp).2]
      show (if cleanLoop (a :: t) = [] then noSites else joinCS (cleanLoop (a :: t)))
        = joinCS (a :: t)
      rw [hclean2]
      simp

theorem claim_C5_witness :
    clean_places_to_visit "Paris, Eiffel Tower".data ≠ [] ∧
    clean_places_to_visit (clean_places_to_visit "Paris, Eiffel Tower".data)
      = clean_places_to_visit "Paris, Eiffel Tower".data :=
  ⟨by decide, claim_C5_amended "Paris, Eiffel Tower".data (by decide)⟩

lemma isDelimB_mem {p : LC} (h : isDelimB p = true) : p ∈ delims := by
  rw [isDelimB, List.any_eq_true] at h
  obtain ⟨d, hd, hdp⟩ := h
  have : d = p := by simpa using hdp
  exact this ▸ hd

lemma delims_facts : ∀ d ∈ delims,
    blankB d = false ∧ endsWithColon d = true ∧ keyOf d ≠ [] := by decide

lemma hasKey_append_single (acc : List (LC × LC)) (k v k2 : LC)
    (h1 : hasKey acc k2 = false) (h2 : ¬(k = k2)) :
    hasKey (acc ++ [(k, v)]) k2 = false := by
  rw [hasKey, List.any_append]
  rw [hasKey] at h1
  simp [h1, h2]

lemma dictInsert_fresh (acc : List (LC × LC)) (k v : LC) (h : hasKey acc k = false) :
    dictInsert acc k v = acc ++ [(k, v)] := by
  rw [dictInsert, if_neg (by simp [h])]

lemma walkPieces_cons (p : LC) (rest : List LC) (cur : Option LC) (acc : List (LC × LC)) :
    walkPieces (p :: rest) cur acc =
      if blankB p then walkPieces rest cur acc
      else if endsWithColon p then walkPieces rest (some (keyOf p)) acc
      else
        match cur with
        | some k =>
          if k = [] then walkPieces rest cur acc
          else walkPieces rest none (dictInsert acc k (pyStrip p))
        | none => walkPieces rest cur acc := rfl

lemma walk_length : ∀ (pieces : List LC) (cur : Option LC) (acc : List (LC × LC)),
    (∀ p ∈ pieces, blankB p = false → endsWithColon p = true → isDelimB p = true) →
    (curKeys cur ++ delimKeys pieces).Nodup →
    (∀ k ∈ curKeys cur ++ delimKeys pieces, hasKey acc k = false) →
    (∀ k ∈ curKeys cur, k ≠ []) →
    (walkPieces pieces cur acc).length = acc.length + assignedCount cur.isSome pieces := by
  intro pieces
  induction pieces with
  | nil => intro cur acc _ _ _ _; simp [walkPieces, assignedCount]
  | cons p rest ih =>
    intro cur acc hd hnd hfresh hcur
    by_cases hb : blankB p = true
    · have hpd : isDelimB p = false := by
        by_cases hdp : isDelimB p = true
        · exact absurd ((delims_facts p (isDelimB_mem hdp)).1) (by simp [hb])
        · exact Bool.eq_false_iff.mpr hdp
      have hdk : delimKeys (p :: rest) = delimKeys rest := by
        simp [delimKeys, List.filter_cons, hpd]
      rw [hdk] at hnd hfresh
      rw [walkPieces_cons, if_pos hb, assignedCount, if_pos hb]
      exact ih cur acc (fun q hq h1 h2 => hd q (List.mem_cons_of_mem p hq) h1 h2)
        hnd hfresh hcur
    · by_cases he : endsWithColon p = true
      · have hpd : isDelimB p = true :=
          hd p (List.mem_cons_self p rest) (Bool.eq_false_iff.mpr hb) he
        have hdk : delimKeys (p :: rest) = keyOf p :: delimKeys rest := by
          simp [delimKeys, List.filter_cons, hpd]
        rw [hdk] at hnd hfresh
        rw [walkPieces_cons, if_neg hb, if_pos he, assignedCount, if_neg hb, if_pos he]
        apply ih (some (keyOf p)) acc
          (fun q hq h1 h2 => hd q (List.mem_cons_of_mem p hq) h1 h2)
        · show (keyOf p :: delimKeys rest).Nodup
          exact (List.sublist_append_right (curKeys cur) _).nodup hnd
        · intro k hk
          apply hfresh
          exact List.mem_append_right _ hk
        · intro k hk
          rcases List.mem_singleton.mp hk with rfl
          exact (delims_facts p (isDelimB_mem hpd)).2.2
      · have hpd : isDelimB p = false := by
          by_cases hdp : isDelimB p = true
          · exact absurd ((delims_facts p (isDelimB_mem hdp)).2.1) (by simp [he])
          · exact Bool.eq_false_iff.mpr hdp
        have hdk : delimKeys (p :: rest) = delimKeys rest := by
          simp [delimKeys, List.filter_cons, hpd]
        rw [hdk] at hnd hfresh
        rw [walkPieces_cons, if_neg hb, if_neg he, assignedCount, if_neg hb, if_neg he]
        cases cur with
        | none =>
          show (walkPieces rest none acc).length = acc.length + assignedCount false rest
          exact ih none acc (fun q hq h1 h2 => hd q (List.mem_cons_of_mem p hq) h1 h2)
            hnd hfresh (by intro k hk; exact absurd hk (by simp [curKeys]))
        | some k =>
          have hk_ne : k ≠ [] := hcur k (List.mem_singleton.mpr rfl)
          show (if k = [] then walkPieces rest (some k) acc
            else walkPieces rest none (dictInsert acc k (pyStrip p))).length
              = acc.length + (1 + assignedCount false rest)
          rw [if_neg hk_ne]
          have hkfresh : hasKey acc k = false :=
            hfresh k (List.mem_append_left _ (List.mem_singleton.mpr rfl))
          have hknotin : k ∉ delimKeys rest := by
            have : (k :: delimKeys rest).Nodup := hnd
            exact (List.nodup_cons.mp this).1
          rw [dictInsert_fresh acc k (pyStrip p) hkfresh]
          rw [ih none (acc ++ [(k, pyStrip p)])
            (fun q hq h1 h2 => hd q (List.mem_cons_of_mem p hq) h1 h2)
            ((List.sublist_append_right (curKeys (some k)) _).nodup hnd)
            (by
              intro k2 hk2
              have hk2r : k2 ∈ delimKeys rest := by simpa [curKeys] using hk2
              refine hasKey_append_single acc k (pyStrip p) k2
                (hfresh k2 (List.mem_append_right _ hk2r)) ?_
              intro heq
              exact hknotin (heq ▸ hk2r))
            (by intro k2 hk2; exact absurd hk2 (by simp [curKeys]))]
          simp [List.length_append]
          omega

lemma assignedCount_true (pieces : List LC) :
    assignedCount true pieces
      = (if nvB pieces = true then 1 else 0) + assignedCount false pieces := by
  induction pieces with
  | nil => simp [assignedCount, nvB]
  | cons p rest ih =>
    by_cases hb : blankB p = true
    · rw [assignedCount, if_pos hb, nvB, if_pos hb,
        assignedCount, if_pos hb]
      exact ih
    · by_cases he : endsWithColon p = true
      · rw [assignedCount, if_neg hb, if_pos he, nvB, if_neg hb,
          assignedCount, if_neg hb, if_pos he]
        simp [he]
      · rw [assignedCount, if_neg hb, if_neg he, nvB, if_neg hb,
          assignedCount, if_neg hb, if_neg he]
        simp [he]

lemma assignedCount_false_N_M (pieces : List LC)
    (hd : ∀ p ∈ pieces, blankB p = false → endsWithColon p = true → isDelimB p = true) :
    assignedCount false pieces + Mcount pieces = Ncount pieces := by
  induction pieces with
  | nil => simp [assignedCount, Mcount, Ncount]
  | cons p rest ih =>
    have ih2 := ih (fun q hq h1 h2 => hd q (List.mem_cons_of_mem p hq) h1 h2)
    by_cases hb : blankB p = true
    · have hpd : isDelimB p = false := by
        by_cases hdp : isDelimB p = true
        · exact absurd ((delims_facts p (isDelimB_mem hdp)).1) (by simp [hb])
        · exact Bool.eq_false_iff.mpr hdp
      rw [assignedCount, if_pos hb, Mcount, Ncount, List.countP_cons]
      simp [hb, hpd]
      rw [Ncount] at ih2
      omega
    · by_cases he : endsWithColon p = true
      · have hpd : isDelimB p = true :=
          hd p (List.mem_cons_self p rest) (Bool.eq_false_iff.mpr hb) he
        rw [assignedCount, if_neg hb, if_pos he, assignedCount_true rest,
          Mcount, Ncount, List.countP_cons]
        have hbf : blankB p = false := Bool.eq_false_iff.mpr hb
        rw [Ncount] at ih2
        by_cases hnv : nvB rest = true <;> simp [hbf, hpd, hnv] <;> omega
      · have hpd : isDelimB p = false := by
          by_cases hdp : isDelimB p = true
          · exact absurd ((delims_facts p (isDelimB_mem hdp)).2.1) (by simp [he])
          · exact Bool.eq_false_iff.mpr hdp
        rw [assignedCount, if_neg hb, if_neg he, Mcount, Ncount, List.countP_cons]
        simp [hpd]
        rw [Ncount] at ih2
        omega

/-- Claim C2 (amended): the walk treats a non-blank piece as a key exactly
when it ends with a colon (every catalog delimiter does, but a value piece
ending in a colon would be mistaken for one); for a blob whose delimiter
occurrences carry pairwise distinct keys and in which no non-delimiter
piece ends with a colon, the parser yields exactly one entry per delimiter
occurrence minus those delimiters with no value text before the next
delimiter or the end (a repeated key would collapse to a single entry). -/
theorem claim_C2_amended (s : LC)
    (hd : ∀ p ∈ splitKD s, blankB p = false → endsWithColon p = true → isDelimB p = true)
    (hnd : (delimKeys (splitKD s)).Nodup) :
    (parse_raw_info s).length = Ncount (splitKD s) - Mcount (splitKD s) := by
  by_cases hs : s = []
  · subst hs; decide
  · rw [parse_raw_info, if_neg hs]
    have hw := walk_length (splitKD s) none [] hd
      (by simpa [curKeys] using hnd)
      (by intro k _; rfl)
      (by intro k hk; exact absurd hk (by simp [curKeys]))
    have hc := assignedCount_false_N_M (splitKD s) hd
    simp only [Option.isSome_none, List.length_nil, Nat.zero_add] at hw
    omega

theorem claim_C2_witness :
    (∀ p ∈ splitKD "Destination:Delhi Country:India Standard Time / Timezone:IST Currency:INR (Indian Rupee)".data,
        blankB p = false → endsWithColon p = true → isDelimB p = true) ∧
    (delimKeys (splitKD "Destination:Delhi Country:India Standard Time / Timezone:IST Currency:INR (Indian Rupee)".data)).Nodup ∧
    (parse_raw_info "Destination:Delhi Country:India Standard Time / Timezone:IST Currency:INR (Indian Rupee)".data).length
      = Ncount (splitKD "Destination:Delhi Country:India Standard Time / Timezone:IST Currency:INR (Indian Rupee)".data)
        - Mcount (splitKD "Destination:Delhi Country:India Standard Time / Timezone:IST Currency:INR (Indian Rupee)".data) :=
  ⟨by decide, by decide,
    claim_C2_amended
      "Destination:Delhi Country:India Standard Time / Timezone:IST Currency:INR (Indian Rupee)".data
      (by decide) (by decide)⟩

end Travel
